import Mathlib

/-!
Verification of `crates/rustdoc_to_markdown/src/markdown_writer.rs`.

The Rust source is shallowly embedded below.  Strings are modelled as
`String`/`List Char`; the output buffer of the `MarkdownWriter` is kept as a
`List Char` so that the normalisation pass can be reasoned about by list
induction.  The fallible interfaces (`Result<..>` in Rust) are modelled with
`Except String`, and a pure variant of the traversal is proved equal to it.

Notes on the regex embedding:

* `empty_line_regex` is `^\s*$` compiled WITHOUT multi-line mode.  In the Rust
  `regex` crate, `^` and `$` then anchor to the start/end of the whole
  haystack, so `replace_all` erases the text exactly when the entire haystack
  consists of whitespace (`empty_line_replace_all` below).
* `more_than_three_newlines_regex` is `\n{3,}`; `replace_all` with `"\n\n"`
  rewrites every maximal run of 3 or more newlines to exactly two newlines
  (`more_than_three_newlines_replace_all` below).
* `\s` in the `regex` crate and Rust's `char::is_whitespace` (used by
  `str::trim`) both denote the Unicode `White_Space` property,
  enumerated in `isUnicodeWhitespace`.
-/

/-- Unicode `White_Space` property: the character class matched by `\s` in the
Rust `regex` crate and tested by Rust's `char::is_whitespace`. -/
def isUnicodeWhitespace (c : Char) : Bool :=
  c == '\t' || c == '\n' || c == '\x0b' || c == '\x0c' || c == '\r' || c == ' ' ||
  c == '\u0085' || c == '\u00A0' || c == '\u1680' ||
  c == '\u2000' || c == '\u2001' || c == '\u2002' || c == '\u2003' ||
  c == '\u2004' || c == '\u2005' || c == '\u2006' || c == '\u2007' ||
  c == '\u2008' || c == '\u2009' || c == '\u200A' ||
  c == '\u2028' || c == '\u2029' || c == '\u202F' || c == '\u205F' || c == '\u3000'

/-- Remove characters satisfying `p` from both ends of a character list; this
is the semantics of Rust's `str::trim_matches` (and of `str::trim`, with
`p := isUnicodeWhitespace`). -/
def trimBoth (p : Char → Bool) (l : List Char) : List Char :=
  ((l.dropWhile p).reverse.dropWhile p).reverse

/-- Rust `str::trim` on a character list. -/
def rust_trim (l : List Char) : List Char :=
  trimBoth isUnicodeWhitespace l

/-- Rust `str::trim` on a `String`. -/
def rust_trim_string (s : String) : String :=
  ⟨rust_trim s.data⟩

/-- Rust `str::split(sep)` for a one-character separator: splits into the
(possibly empty) pieces between occurrences of `sep`; the result is never
empty, and splitting the empty string yields `[[]]`. -/
def splitOnChar (sep : Char) : List Char → List (List Char)
  | [] => [[]]
  | c :: cs =>
    match splitOnChar sep cs with
    | [] => [[]]
    | piece :: rest => if c == sep then [] :: piece :: rest else (c :: piece) :: rest

/-- An HTML attribute: the local name and the value (html5ever `Attribute`,
restricted to the fields the renderer reads). -/
structure Attribute where
  name : String
  value : String
deriving DecidableEq, Repr

/-- `HtmlElement` from the source: a tag name together with its attributes. -/
structure HtmlElement where
  tag : String
  attrs : List Attribute
deriving DecidableEq, Repr

/-- `StartTagOutcome` from the source. -/
inductive StartTagOutcome where
  | Continue
  | Skip
deriving DecidableEq, Repr

/-- `MarkdownWriter` state: the tag context stack (a `VecDeque` used only via
`push_back`/`pop_back`/iteration, so a list with its back at the end) and the
Markdown output buffer. -/
structure MarkdownWriter where
  current_element_stack : List HtmlElement
  markdown : List Char
deriving DecidableEq, Repr

/-- `MarkdownWriter::new`. -/
def MarkdownWriter.new : MarkdownWriter :=
  { current_element_stack := [], markdown := [] }

/-- `MarkdownWriter::is_inside`: is some element with the given tag on the
context stack? -/
def is_inside (w : MarkdownWriter) (tag : String) : Bool :=
  w.current_element_stack.any fun parent_element => parent_element.tag == tag

/-- Append raw characters to the output buffer. -/
def push_chars (w : MarkdownWriter) (l : List Char) : MarkdownWriter :=
  { w with markdown := w.markdown ++ l }

/-- `MarkdownWriter::push_str`. -/
def push_str (w : MarkdownWriter) (s : String) : MarkdownWriter :=
  push_chars w s.data

/-- `MarkdownWriter::push_newline`. -/
def push_newline (w : MarkdownWriter) : MarkdownWriter :=
  push_str w "\n"

/-- `push_back` on the context stack. -/
def push_element (w : MarkdownWriter) (e : HtmlElement) : MarkdownWriter :=
  { w with current_element_stack := w.current_element_stack ++ [e] }

/-- `pop_back` on the context stack. -/
def pop_element (w : MarkdownWriter) : MarkdownWriter :=
  { w with current_element_stack := w.current_element_stack.dropLast }

/-- The `classes_to_skip` array from the `div`/`span` branch of `start_tag`. -/
def classes_to_skip : List String :=
  ["nav-container", "sidebar-elems", "out-of-band"]

/-- `MarkdownWriter::start_tag`: the enter rule.  Returns the updated writer
(Rust mutates `self`) together with the `StartTagOutcome`. -/
def start_tag (w : MarkdownWriter) (tag : HtmlElement) : MarkdownWriter × StartTagOutcome :=
  match tag.tag with
  | "head" | "script" | "nav" => (w, .Skip)
  | "h1" => (push_str w "\n\n# ", .Continue)
  | "h2" => (push_str w "\n\n## ", .Continue)
  | "h3" => (push_str w "\n\n### ", .Continue)
  | "h4" => (push_str w "\n\n#### ", .Continue)
  | "h5" => (push_str w "\n\n##### ", .Continue)
  | "h6" => (push_str w "\n\n###### ", .Continue)
  | "code" => (if is_inside w "pre" then w else push_str w "`", .Continue)
  | "pre" =>
    let classes : List String :=
      match tag.attrs.find? (fun attr => attr.name == "class") with
      | some attr => (splitOnChar ' ' attr.value.data).map fun piece => rust_trim_string ⟨piece⟩
      | none => []
    let is_rust := classes.any fun cls => cls == "rust"
    let language := if is_rust then "rs" else ""
    (push_str w ("\n```" ++ language ++ "\n"), .Continue)
  | "ul" | "ol" => (push_newline w, .Continue)
  | "li" => (push_str w "- ", .Continue)
  | "summary" =>
    if tag.attrs.any (fun attr => attr.name == "class" && attr.value == "hideme") then
      (w, .Skip)
    else (w, .Continue)
  | "div" | "span" =>
    if tag.attrs.any (fun attr => attr.name == "class" &&
        (splitOnChar ' ' attr.value.data).any fun cls =>
          classes_to_skip.contains (rust_trim_string ⟨cls⟩)) then
      (w, .Skip)
    else if tag.attrs.any (fun attr => attr.name == "class" && attr.value == "item-name") then
      (push_str w "`", .Continue)
    else (w, .Continue)
  | _ => (w, .Continue)

/-- `MarkdownWriter::end_tag`: the exit rule. -/
def end_tag (w : MarkdownWriter) (tag : HtmlElement) : MarkdownWriter :=
  match tag.tag with
  | "h1" | "h2" | "h3" | "h4" | "h5" | "h6" => push_str w "\n\n"
  | "code" => if is_inside w "pre" then w else push_str w "`"
  | "pre" => push_str w "\n```\n"
  | "ul" | "ol" => push_newline w
  | "li" => push_newline w
  | "div" =>
    if tag.attrs.any (fun attr => attr.name == "class" && attr.value == "item-name") then
      push_str w "`: "
    else w
  | _ => w

/-- The character class trimmed by `visit_text` outside of `pre` contexts:
the closure `|char| char == '\n' || char == '\r' || char == '§'`. -/
def is_trimmed_char (c : Char) : Bool :=
  c == '\n' || c == '\r' || c == '§'

/-- `MarkdownWriter::visit_text` (fallible signature as in the source; every
path returns `Ok`). -/
def visit_text (w : MarkdownWriter) (text : String) : Except String MarkdownWriter :=
  if is_inside w "pre" then
    .ok (push_str w text)
  else
    .ok (push_chars w (trimBoth is_trimmed_char text.data))

/-- Pure version of `visit_text`. -/
def visit_text_pure (w : MarkdownWriter) (text : String) : MarkdownWriter :=
  if is_inside w "pre" then
    push_str w text
  else
    push_chars w (trimBoth is_trimmed_char text.data)

mutual
/-- A DOM node as produced by `markup5ever_rcdom`: a `NodeData` variant plus an
ordered child list.  (Every node carries a child list; for `Text` nodes it is
empty in practice, but the traversal recurses into it regardless.) -/
inductive Node where
  | document (children : NodeList)
  | doctype (children : NodeList)
  | processing_instruction (children : NodeList)
  | comment (children : NodeList)
  | element (name : String) (attrs : List Attribute) (children : NodeList)
  | text (contents : String) (children : NodeList)
/-- An ordered list of DOM nodes. -/
inductive NodeList where
  | nil
  | cons (head : Node) (tail : NodeList)
end

mutual
/-- `MarkdownWriter::visit_node`: handle the node data, run the enter rule
(possibly pruning), recurse into children, then pop and run the exit rule. -/
def visit_node (w : MarkdownWriter) (node : Node) : Except String MarkdownWriter :=
  match node with
  | .document children | .doctype children | .processing_instruction children
  | .comment children =>
    visit_children w children
  | .text contents children =>
    match visit_text w contents with
    | .ok w' => visit_children w' children
    | .error e => .error e
  | .element name attrs children =>
    if name = "" then visit_children w children
    else
      match start_tag w ⟨name, attrs⟩ with
      | (w', .Skip) => .ok w'
      | (w', .Continue) =>
        match visit_children (push_element w' ⟨name, attrs⟩) children with
        | .ok w'' => .ok (end_tag (pop_element w'') ⟨name, attrs⟩)
        | .error e => .error e
/-- The `for child in node.children` loop of `visit_node`. -/
def visit_children (w : MarkdownWriter) (nodes : NodeList) : Except String MarkdownWriter :=
  match nodes with
  | .nil => .ok w
  | .cons child rest =>
    match visit_node w child with
    | .ok w' => visit_children w' rest
    | .error e => .error e
end

mutual
/-- Pure version of `visit_node`. -/
def visit_node_pure (w : MarkdownWriter) (node : Node) : MarkdownWriter :=
  match node with
  | .document children | .doctype children | .processing_instruction children
  | .comment children =>
    visit_children_pure w children
  | .text contents children =>
    visit_children_pure (visit_text_pure w contents) children
  | .element name attrs children =>
    if name = "" then visit_children_pure w children
    else
      match start_tag w ⟨name, attrs⟩ with
      | (w', .Skip) => w'
      | (w', .Continue) =>
        end_tag (pop_element (visit_children_pure (push_element w' ⟨name, attrs⟩) children))
          ⟨name, attrs⟩
/-- Pure version of `visit_children`. -/
def visit_children_pure (w : MarkdownWriter) (nodes : NodeList) : MarkdownWriter :=
  match nodes with
  | .nil => w
  | .cons child rest => visit_children_pure (visit_node_pure w child) rest
end

/-- `replace_all` with `empty_line_regex()` (the pattern `^\s*$`, compiled
without multi-line mode): without the `m` flag the anchors match only at the
boundaries of the haystack, so the single possible match is the whole text,
and only when it consists entirely of whitespace. -/
def empty_line_replace_all (l : List Char) : List Char :=
  if l.all isUnicodeWhitespace then [] else l

/-- The replacement text produced for one maximal run of `n` newlines by
`replace_all` with `\n{3,}` and replacement `"\n\n"`. -/
def newline_run (n : Nat) : List Char :=
  if 3 ≤ n then ['\n', '\n'] else List.replicate n '\n'

/-- Worker for `more_than_three_newlines_replace_all`: `n` counts the pending
newlines already read from the current run. -/
def collapse_newlines_aux : List Char → Nat → List Char
  | [], n => newline_run n
  | c :: cs, n =>
    if c = '\n' then collapse_newlines_aux cs (n + 1)
    else newline_run n ++ c :: collapse_newlines_aux cs 0

/-- `replace_all` with `more_than_three_newlines_regex()` (pattern `\n{3,}`,
replacement `"\n\n"`): every maximal run of 3 or more newlines becomes exactly
two newlines; shorter runs are kept. -/
def more_than_three_newlines_replace_all (l : List Char) : List Char :=
  collapse_newlines_aux l 0

/-- `MarkdownWriter::prettify_markdown`: erase the haystack if it is entirely
whitespace, collapse newline runs, then trim the ends. -/
def prettify_markdown (l : List Char) : List Char :=
  rust_trim (more_than_three_newlines_replace_all (empty_line_replace_all l))

/-- `MarkdownWriter::run`: visit the root node, then prettify the buffer. -/
def run (w : MarkdownWriter) (root_node : Node) : Except String (List Char) :=
  match visit_node w root_node with
  | .ok w' => .ok (prettify_markdown w'.markdown)
  | .error e => .error e

/-- Does the text contain three consecutive newline characters (equivalently,
a substring of 3 or more consecutive newlines)? -/
def has_triple_newline : List Char → Bool
  | c1 :: c2 :: c3 :: rest =>
    (c1 == '\n' && c2 == '\n' && c3 == '\n') || has_triple_newline (c2 :: c3 :: rest)
  | _ => false

/-- Does the text contain a line that is nonempty and consists only of
whitespace characters? -/
def has_whitespace_only_line (l : List Char) : Bool :=
  (splitOnChar '\n' l).any fun line => !line.isEmpty && line.all isUnicodeWhitespace

/-- Instrumentation of `visit_node`'s exit path: the tag context stack at the
moment `end_tag` is invoked for the root of `node` (mirroring the source, which
performs `pop_back` and then calls `end_tag`).  `none` when the node is not an
element with a nonempty tag name, when its enter rule signals `Skip`, or when
visiting the children fails. -/
def stack_at_end_tag (w : MarkdownWriter) (node : Node) : Option (List HtmlElement) :=
  match node with
  | .element name attrs children =>
    if name = "" then none
    else
      match start_tag w ⟨name, attrs⟩ with
      | (_, .Skip) => none
      | (w', .Continue) =>
        match visit_children (push_element w' ⟨name, attrs⟩) children with
        | .ok w'' => some (pop_element w'').current_element_stack
        | .error _ => none
  | _ => none

/-! ### Basic simp lemmas about the writer state -/

theorem push_chars_markdown (w : MarkdownWriter) (l : List Char) :
    (push_chars w l).markdown = w.markdown ++ l := rfl

theorem push_chars_stack (w : MarkdownWriter) (l : List Char) :
    (push_chars w l).current_element_stack = w.current_element_stack := rfl

theorem start_tag_stack (w : MarkdownWriter) (e : HtmlElement) :
    (start_tag w e).1.current_element_stack = w.current_element_stack := by
  unfold start_tag
  repeat' split
  all_goals rfl

theorem end_tag_stack (w : MarkdownWriter) (e : HtmlElement) :
    (end_tag w e).current_element_stack = w.current_element_stack := by
  unfold end_tag
  repeat' split
  all_goals rfl

theorem start_tag_skip_state (w : MarkdownWriter) (e : HtmlElement)
    (h : (start_tag w e).2 = .Skip) : (start_tag w e).1 = w := by
  unfold start_tag at *
  repeat' split at h
  all_goals simp_all

theorem visit_text_ok (w : MarkdownWriter) (text : String) :
    visit_text w text = .ok (visit_text_pure w text) := by
  unfold visit_text visit_text_pure
  split <;> rfl

theorem visit_text_pure_stack (w : MarkdownWriter) (text : String) :
    (visit_text_pure w text).current_element_stack = w.current_element_stack := by
  unfold visit_text_pure
  split <;> rfl

/-! ### The fallible traversal never fails and agrees with the pure one -/

mutual
theorem visit_node_ok (w : MarkdownWriter) (node : Node) :
    visit_node w node = .ok (visit_node_pure w node) := by
  cases node with
  | document children | doctype children | processing_instruction children
  | comment children =>
    simp only [visit_node, visit_node_pure]
    exact visit_children_ok w children
  | text contents children =>
    simp only [visit_node, visit_node_pure, visit_text_ok]
    exact visit_children_ok (visit_text_pure w contents) children
  | element name attrs children =>
    simp only [visit_node, visit_node_pure]
    by_cases h : name = ""
    · simp only [if_pos h]
      exact visit_children_ok w children
    · simp only [if_neg h]
      rcases hst : start_tag w ⟨name, attrs⟩ with ⟨w', o⟩
      cases o with
      | Skip => rfl
      | Continue =>
        simp only [visit_children_ok (push_element w' ⟨name, attrs⟩) children]
theorem visit_children_ok (w : MarkdownWriter) (nodes : NodeList) :
    visit_children w nodes = .ok (visit_children_pure w nodes) := by
  cases nodes with
  | nil => rfl
  | cons child rest =>
    simp only [visit_children, visit_children_pure, visit_node_ok]
    exact visit_children_ok (visit_node_pure w child) rest
end

mutual
theorem visit_node_pure_stack (w : MarkdownWriter) (node : Node) :
    (visit_node_pure w node).current_element_stack = w.current_element_stack := by
  cases node with
  | document children | doctype children | processing_instruction children
  | comment children =>
    simp only [visit_node_pure]
    exact visit_children_pure_stack w children
  | text contents children =>
    simp only [visit_node_pure]
    rw [visit_children_pure_stack, visit_text_pure_stack]
  | element name attrs children =>
    simp only [visit_node_pure]
    by_cases h : name = ""
    · simp only [if_pos h]
      exact visit_children_pure_stack w children
    · simp only [if_neg h]
      rcases hst : start_tag w ⟨name, attrs⟩ with ⟨w', o⟩
      have hw' : w'.current_element_stack = w.current_element_stack := by
        have := start_tag_stack w ⟨name, attrs⟩
        rw [hst] at this
        exact this
      cases o with
      | Skip => exact hw'
      | Continue =>
        rw [end_tag_stack]
        show (pop_element (visit_children_pure (push_element w' ⟨name, attrs⟩)
          children)).current_element_stack = w.current_element_stack
        unfold pop_element
        rw [visit_children_pure_stack]
        show ((push_element w' ⟨name, attrs⟩).current_element_stack).dropLast =
          w.current_element_stack
        unfold push_element
        rw [List.dropLast_concat, hw']
theorem visit_children_pure_stack (w : MarkdownWriter) (nodes : NodeList) :
    (visit_children_pure w nodes).current_element_stack = w.current_element_stack := by
  cases nodes with
  | nil => rfl
  | cons child rest =>
    simp only [visit_children_pure]
    rw [visit_children_pure_stack, visit_node_pure_stack]
end

/-! ### Lemmas about `has_triple_newline` -/

theorem ht_cons_of_ne {c : Char} (h : c ≠ '\n') (r : List Char) :
    has_triple_newline (c :: r) = has_triple_newline r := by
  match r with
  | [] => rfl
  | [x] => rfl
  | x :: y :: rs => simp [has_triple_newline, h]

theorem ht_cons2_of_ne {c : Char} (h : c ≠ '\n') (x : Char) (r : List Char) :
    has_triple_newline (x :: c :: r) = has_triple_newline (c :: r) := by
  match r with
  | [] => rfl
  | y :: rs =>
    have hu : has_triple_newline (x :: c :: y :: rs) =
        ((x == '\n' && c == '\n' && y == '\n') || has_triple_newline (c :: y :: rs)) := rfl
    rw [hu]
    simp [h]

theorem ht_three (b : List Char) :
    has_triple_newline ('\n' :: '\n' :: '\n' :: b) = true := by
  simp [has_triple_newline]

theorem ht_mono_cons (c : Char) {m : List Char} (h : has_triple_newline m = true) :
    has_triple_newline (c :: m) = true := by
  match m with
  | [] => simp [has_triple_newline] at h
  | [x] => simp [has_triple_newline] at h
  | [x, y] => simp [has_triple_newline] at h
  | x :: y :: z :: rs =>
    have hu : has_triple_newline (c :: x :: y :: z :: rs) =
        ((c == '\n' && x == '\n' && y == '\n') || has_triple_newline (x :: y :: z :: rs)) := rfl
    rw [hu, h, Bool.or_true]

theorem ht_iff (l : List Char) :
    has_triple_newline l = true ↔ ∃ a b, l = a ++ '\n' :: '\n' :: '\n' :: b := by
  constructor
  · induction l with
    | nil => intro h; simp [has_triple_newline] at h
    | cons c cs ih =>
      intro h
      rcases cs with _ | ⟨x, _ | ⟨y, rs⟩⟩
      · simp [has_triple_newline] at h
      · simp [has_triple_newline] at h
      · have hu : has_triple_newline (c :: x :: y :: rs) =
            ((c == '\n' && x == '\n' && y == '\n') || has_triple_newline (x :: y :: rs)) := rfl
        rw [hu] at h
        rcases (by simpa using h :
            ((c = '\n' ∧ x = '\n') ∧ y = '\n') ∨ has_triple_newline (x :: y :: rs) = true) with
          ⟨⟨rfl, rfl⟩, rfl⟩ | h2
        · exact ⟨[], rs, rfl⟩
        · obtain ⟨a, b, hab⟩ := ih h2
          exact ⟨c :: a, b, by rw [hab]; rfl⟩
  · rintro ⟨a, b, rfl⟩
    induction a with
    | nil => exact ht_three b
    | cons c a' ih => exact ht_mono_cons c ih

theorem ht_middle_false {l x m y : List Char} (hl : l = x ++ m ++ y)
    (h : has_triple_newline l = false) : has_triple_newline m = false := by
  cases hm : has_triple_newline m with
  | false => rfl
  | true =>
    obtain ⟨a, b, rfl⟩ := (ht_iff m).1 hm
    have htrue : has_triple_newline l = true :=
      (ht_iff l).2 ⟨x ++ a, b ++ y, by rw [hl]; simp⟩
    rw [htrue] at h
    cases h

/-! ### Lemmas about `newline_run` and `collapse_newlines_aux` -/

theorem rep_triple {n : Nat} (h3 : 3 ≤ n) (l : List Char) :
    has_triple_newline (List.replicate n '\n' ++ l) = true := by
  obtain ⟨k, rfl⟩ := Nat.exists_eq_add_of_le h3
  have he : List.replicate (3 + k) '\n' ++ l =
      '\n' :: '\n' :: '\n' :: (List.replicate k '\n' ++ l) := by
    rw [List.replicate_add]
    rfl
  rw [he]
  exact ht_three _

theorem ht_cons_run {c : Char} (h : c ≠ '\n') {r : List Char}
    (hr : has_triple_newline r = false) (n : Nat) :
    has_triple_newline (newline_run n ++ c :: r) = false := by
  have step2 : has_triple_newline ('\n' :: '\n' :: c :: r) = false := by
    have hu : has_triple_newline ('\n' :: '\n' :: c :: r) =
        (('\n' == '\n' && '\n' == '\n' && c == '\n') ||
          has_triple_newline ('\n' :: c :: r)) := rfl
    rw [hu, ht_cons2_of_ne h, ht_cons_of_ne h, hr]
    simp [h]
  by_cases h3 : 3 ≤ n
  · rw [newline_run, if_pos h3]
    exact step2
  · rw [newline_run, if_neg h3]
    rcases n with _ | _ | _ | m
    · rw [List.replicate, List.nil_append, ht_cons_of_ne h, hr]
    · rw [show List.replicate 1 '\n' ++ c :: r = '\n' :: c :: r from rfl,
        ht_cons2_of_ne h, ht_cons_of_ne h, hr]
    · rw [show List.replicate 2 '\n' ++ c :: r = '\n' :: '\n' :: c :: r from rfl]
      exact step2
    · omega

theorem collapse_no_triple (l : List Char) :
    ∀ n, has_triple_newline (collapse_newlines_aux l n) = false := by
  induction l with
  | nil =>
    intro n
    rw [collapse_newlines_aux]
    by_cases h3 : 3 ≤ n
    · rw [newline_run, if_pos h3]; rfl
    · rw [newline_run, if_neg h3]
      rcases n with _ | _ | _ | m
      · rfl
      · rfl
      · rfl
      · omega
  | cons c cs ih =>
    intro n
    by_cases hc : c = '\n'
    · rw [collapse_newlines_aux, if_pos hc]
      exact ih (n + 1)
    · rw [collapse_newlines_aux, if_neg hc]
      exact ht_cons_run hc (ih 0) n

theorem rep_cons_eq (n : Nat) (l : List Char) :
    List.replicate n '\n' ++ '\n' :: l = List.replicate (n + 1) '\n' ++ l := by
  rw [List.replicate_succ']
  simp

theorem collapse_id (l : List Char) :
    ∀ n, has_triple_newline (List.replicate n '\n' ++ l) = false →
      collapse_newlines_aux l n = List.replicate n '\n' ++ l := by
  induction l with
  | nil =>
    intro n h
    have h3 : ¬ 3 ≤ n := fun h3 => by rw [rep_triple h3 []] at h; cases h
    rw [collapse_newlines_aux, newline_run, if_neg h3, List.append_nil]
  | cons c cs ih =>
    intro n h
    by_cases hc : c = '\n'
    · subst hc
      rw [collapse_newlines_aux, if_pos rfl]
      have h' : has_triple_newline (List.replicate (n + 1) '\n' ++ cs) = false := by
        rw [← rep_cons_eq]; exact h
      rw [ih (n + 1) h', rep_cons_eq]
    · rw [collapse_newlines_aux, if_neg hc]
      have h3 : ¬ 3 ≤ n := fun h3 => by rw [rep_triple h3 (c :: cs)] at h; cases h
      have hcs : has_triple_newline cs = false :=
        ht_middle_false (l := List.replicate n '\n' ++ c :: cs)
          (x := List.replicate n '\n' ++ [c]) (m := cs) (y := []) (by simp) h
      rw [ih 0 (by simpa using hcs)]
      rw [newline_run, if_neg h3]
      simp

/-! ### Lemmas about `trimBoth` -/

theorem dropWhile_head_not (p : Char → Bool) (l : List Char) :
    ((l.dropWhile p).head?.all fun c => !p c) = true := by
  induction l with
  | nil => rfl
  | cons c cs ih =>
    by_cases h : p c <;> simp [List.dropWhile_cons, h, ih]

theorem trimBoth_decomp (p : Char → Bool) (l : List Char) :
    ∃ a b, l = a ++ trimBoth p l ++ b ∧ a.all p = true ∧ b.all p = true := by
  refine ⟨l.takeWhile p, ((l.dropWhile p).reverse.takeWhile p).reverse, ?_,
    List.all_takeWhile, ?_⟩
  · conv_lhs => rw [← List.takeWhile_append_dropWhile p l]
    rw [List.append_assoc]
    congr 1
    have hrev := congrArg List.reverse
      (List.takeWhile_append_dropWhile p (l.dropWhile p).reverse)
    rw [List.reverse_append, List.reverse_reverse] at hrev
    exact hrev.symm
  · rw [List.all_reverse]
    exact List.all_takeWhile

theorem trimBoth_getLast_not (p : Char → Bool) (l : List Char) :
    ((trimBoth p l).getLast?.all fun c => !p c) = true := by
  rw [trimBoth, List.getLast?_reverse]
  exact dropWhile_head_not p _

theorem trimBoth_head_not (p : Char → Bool) (l : List Char) :
    ((trimBoth p l).head?.all fun c => !p c) = true := by
  rw [trimBoth, List.head?_reverse]
  rcases hd : (l.dropWhile p).reverse.dropWhile p with _ | ⟨e, es⟩
  · rfl
  · have hmr := List.takeWhile_append_dropWhile p (l.dropWhile p).reverse
    rw [hd] at hmr
    have h1 : (e :: es).getLast? = (l.dropWhile p).head? :=
      calc (e :: es).getLast?
          = (List.takeWhile p (l.dropWhile p).reverse ++ e :: es).getLast? :=
            (List.getLast?_append_cons _ e es).symm
        _ = ((l.dropWhile p).reverse).getLast? := by rw [hmr]
        _ = (l.dropWhile p).head? := List.getLast?_reverse _
    rw [h1]
    exact dropWhile_head_not p l

theorem dropWhile_cons_neg {p : Char → Bool} {c : Char} (h : p c = false) (r : List Char) :
    (c :: r).dropWhile p = c :: r := by
  simp [List.dropWhile_cons, h]

theorem trimBoth_noop (p : Char → Bool) (l : List Char)
    (hh : (l.head?.all fun c => !p c) = true)
    (hl : (l.getLast?.all fun c => !p c) = true) : trimBoth p l = l := by
  cases l with
  | nil => rfl
  | cons c cs =>
    have hc : p c = false := by simpa using hh
    rcases hrev : (c :: cs).reverse with _ | ⟨e, es⟩
    · simp at hrev
    · have he : p e = false := by
        have hg : (c :: cs).getLast? = some e := by
          rw [← List.head?_reverse, hrev]
          rfl
        rw [hg] at hl
        simpa using hl
      rw [trimBoth, dropWhile_cons_neg hc, hrev, dropWhile_cons_neg he, ← hrev,
        List.reverse_reverse]

/-! ### Lemmas about `prettify_markdown` -/

theorem prettify_no_triple (l : List Char) :
    has_triple_newline (prettify_markdown l) = false := by
  obtain ⟨a, b, hab, -, -⟩ := trimBoth_decomp isUnicodeWhitespace
    (more_than_three_newlines_replace_all (empty_line_replace_all l))
  exact ht_middle_false hab (collapse_no_triple (empty_line_replace_all l) 0)

theorem prettify_head_not (l : List Char) :
    ((prettify_markdown l).head?.all fun c => !isUnicodeWhitespace c) = true :=
  trimBoth_head_not isUnicodeWhitespace _

theorem prettify_getLast_not (l : List Char) :
    ((prettify_markdown l).getLast?.all fun c => !isUnicodeWhitespace c) = true :=
  trimBoth_getLast_not isUnicodeWhitespace _

theorem prettify_idem (l : List Char) :
    prettify_markdown (prettify_markdown l) = prettify_markdown l := by
  rcases ht : prettify_markdown l with _ | ⟨c, cs⟩
  · rfl
  · have hh := prettify_head_not l
    rw [ht] at hh
    have hc : isUnicodeWhitespace c = false := by simpa using hh
    have hl := prettify_getLast_not l
    rw [ht] at hl
    have hnt : has_triple_newline (c :: cs) = false := by
      have := prettify_no_triple l
      rwa [ht] at this
    rw [prettify_markdown]
    have h1 : empty_line_replace_all (c :: cs) = c :: cs := by
      rw [empty_line_replace_all, if_neg]
      simp [hc]
    rw [h1]
    have h2 : more_than_three_newlines_replace_all (c :: cs) = c :: cs := by
      rw [more_than_three_newlines_replace_all, collapse_id (c :: cs) 0 (by simpa using hnt)]
      rfl
    rw [h2]
    exact trimBoth_noop _ _ (by simpa using hc) hl

/-! ### Claims -/

/-- Claim C1 (refuted by evaluation — the code has a bug here): the spec says
`prettify_markdown` removes every whitespace-only line, but `^\s*$` is compiled
without multi-line mode, so in the Rust `regex` crate it matches only a haystack
consisting entirely of whitespace.  Running the renderer on the text node
"a\n \nb" returns the text unchanged, and the final output of `run` contains a
line consisting solely of whitespace. -/
theorem C1_whitespace_line_bug :
    run MarkdownWriter.new (.text "a\n \nb" .nil) = .ok ("a\n \nb").data ∧
    has_whitespace_only_line ("a\n \nb").data = true :=
  ⟨rfl, rfl⟩

/-- Claim C2 is false as stated: the `summary` hideme decision does not inspect
only the first attribute named `class` — with attributes `class="x"
class="hideme"` the element is skipped even though the first `class` attribute
is not `hideme`, while with the later `class` attribute removed it is not
skipped. -/
theorem C2_counterexample :
    (start_tag MarkdownWriter.new
      ⟨"summary", [⟨"class", "x"⟩, ⟨"class", "hideme"⟩]⟩).2 = .Skip ∧
    (start_tag MarkdownWriter.new ⟨"summary", [⟨"class", "x"⟩]⟩).2 = .Continue :=
  ⟨rfl, rfl⟩

/-- Claim C2 (amended): only the `pre` language choice inspects just the first
attribute named `class` (replacing the attribute list by its first `class`
attribute, if any, leaves the result unchanged); the `summary` hideme skip, the
`div`/`span` skip, and the `div`/`span` item-name emission each consider every
attribute named `class`, and match exactly when some `class` attribute
satisfies the respective condition. -/
theorem C2_amended :
    (∀ (w : MarkdownWriter) (attrs : List Attribute),
      start_tag w ⟨"pre", attrs⟩ =
        start_tag w ⟨"pre", (attrs.find? fun attr => attr.name == "class").toList⟩) ∧
    (∀ (w : MarkdownWriter) (attrs : List Attribute),
      (start_tag w ⟨"summary", attrs⟩).2 = .Skip ↔
        attrs.any (fun attr => attr.name == "class" && attr.value == "hideme") = true) ∧
    (∀ (w : MarkdownWriter) (attrs : List Attribute),
      (start_tag w ⟨"div", attrs⟩).2 = .Skip ↔
        attrs.any (fun attr => attr.name == "class" &&
          (splitOnChar ' ' attr.value.data).any fun cls =>
            classes_to_skip.contains (rust_trim_string ⟨cls⟩)) = true) ∧
    (∀ (w : MarkdownWriter) (attrs : List Attribute),
      (start_tag w ⟨"span", attrs⟩).2 = .Skip ↔
        attrs.any (fun attr => attr.name == "class" &&
          (splitOnChar ' ' attr.value.data).any fun cls =>
            classes_to_skip.contains (rust_trim_string ⟨cls⟩)) = true) ∧
    (∀ (w : MarkdownWriter) (attrs : List Attribute),
      (start_tag w ⟨"div", attrs⟩).1.markdown = w.markdown ++
        (if attrs.any (fun attr => attr.name == "class" &&
            (splitOnChar ' ' attr.value.data).any fun cls =>
              classes_to_skip.contains (rust_trim_string ⟨cls⟩)) then []
         else if attrs.any (fun attr => attr.name == "class" &&
            attr.value == "item-name") then ['`']
         else [])) ∧
    (∀ (w : MarkdownWriter) (attrs : List Attribute),
      (start_tag w ⟨"span", attrs⟩).1.markdown = w.markdown ++
        (if attrs.any (fun attr => attr.name == "class" &&
            (splitOnChar ' ' attr.value.data).any fun cls =>
              classes_to_skip.contains (rust_trim_string ⟨cls⟩)) then []
         else if attrs.any (fun attr => attr.name == "class" &&
            attr.value == "item-name") then ['`']
         else [])) := by
  have hdiv : ∀ (w : MarkdownWriter) (attrs : List Attribute),
      start_tag w ⟨"div", attrs⟩ =
        (if (attrs.any fun attr => attr.name == "class" &&
            (splitOnChar ' ' attr.value.data).any fun cls =>
              classes_to_skip.contains (rust_trim_string ⟨cls⟩)) = true then (w, .Skip)
         else if (attrs.any fun attr => attr.name == "class" &&
            attr.value == "item-name") = true then (push_str w "`", .Continue)
         else (w, .Continue)) := fun w attrs => rfl
  have hspan : ∀ (w : MarkdownWriter) (attrs : List Attribute),
      start_tag w ⟨"span", attrs⟩ =
        (if (attrs.any fun attr => attr.name == "class" &&
            (splitOnChar ' ' attr.value.data).any fun cls =>
              classes_to_skip.contains (rust_trim_string ⟨cls⟩)) = true then (w, .Skip)
         else if (attrs.any fun attr => attr.name == "class" &&
            attr.value == "item-name") = true then (push_str w "`", .Continue)
         else (w, .Continue)) := fun w attrs => rfl
  have hsummary : ∀ (w : MarkdownWriter) (attrs : List Attribute),
      start_tag w ⟨"summary", attrs⟩ =
        (if (attrs.any fun attr => attr.name == "class" && attr.value == "hideme") = true then
          ((w, .Skip) : MarkdownWriter × StartTagOutcome)
         else (w, .Continue)) := fun w attrs => rfl
  have skip_iff : ∀ (w : MarkdownWriter) (attrs : List Attribute),
      ((if (attrs.any fun attr => attr.name == "class" &&
            (splitOnChar ' ' attr.value.data).any fun cls =>
              classes_to_skip.contains (rust_trim_string ⟨cls⟩)) = true then
          ((w, .Skip) : MarkdownWriter × StartTagOutcome)
        else if (attrs.any fun attr => attr.name == "class" &&
            attr.value == "item-name") = true then (push_str w "`", .Continue)
        else (w, .Continue)).2 = .Skip ↔
        (attrs.any fun attr => attr.name == "class" &&
          (splitOnChar ' ' attr.value.data).any fun cls =>
            classes_to_skip.contains (rust_trim_string ⟨cls⟩)) = true) := by
    intro w attrs
    by_cases h1 : (attrs.any fun attr => attr.name == "class" &&
        (splitOnChar ' ' attr.value.data).any fun cls =>
          classes_to_skip.contains (rust_trim_string ⟨cls⟩)) = true
    · rw [if_pos h1]
      exact iff_of_true rfl h1
    · rw [if_neg h1]
      by_cases h2 : (attrs.any fun attr => attr.name == "class" &&
          attr.value == "item-name") = true
      · rw [if_pos h2]
        exact iff_of_false (fun hc => StartTagOutcome.noConfusion hc) h1
      · rw [if_neg h2]
        exact iff_of_false (fun hc => StartTagOutcome.noConfusion hc) h1
  have md_eq : ∀ (w : MarkdownWriter) (attrs : List Attribute),
      ((if (attrs.any fun attr => attr.name == "class" &&
            (splitOnChar ' ' attr.value.data).any fun cls =>
              classes_to_skip.contains (rust_trim_string ⟨cls⟩)) = true then
          ((w, .Skip) : MarkdownWriter × StartTagOutcome)
        else if (attrs.any fun attr => attr.name == "class" &&
            attr.value == "item-name") = true then (push_str w "`", .Continue)
        else (w, .Continue)).1.markdown = w.markdown ++
        (if attrs.any (fun attr => attr.name == "class" &&
            (splitOnChar ' ' attr.value.data).any fun cls =>
              classes_to_skip.contains (rust_trim_string ⟨cls⟩)) then []
         else if attrs.any (fun attr => attr.name == "class" &&
            attr.value == "item-name") then ['`']
         else [])) := by
    intro w attrs
    by_cases h1 : (attrs.any fun attr => attr.name == "class" &&
        (splitOnChar ' ' attr.value.data).any fun cls =>
          classes_to_skip.contains (rust_trim_string ⟨cls⟩)) = true
    · rw [if_pos h1, if_pos h1]
      exact (List.append_nil _).symm
    · rw [if_neg h1, if_neg h1]
      by_cases h2 : (attrs.any fun attr => attr.name == "class" &&
          attr.value == "item-name") = true
      · rw [if_pos h2, if_pos h2]
        rfl
      · rw [if_neg h2, if_neg h2]
        exact (List.append_nil _).symm
  refine ⟨?_, ?_, ?_, ?_, ?_, ?_⟩
  · intro w attrs
    have hpre : ∀ (ats : List Attribute), start_tag w ⟨"pre", ats⟩ =
        (push_str w ("\n```" ++
          (if (((match ats.find? (fun attr => attr.name == "class") with
              | some attr =>
                (splitOnChar ' ' attr.value.data).map fun piece =>
                  rust_trim_string (String.mk piece)
              | none => []) : List String).any fun cls => cls == "rust") = true then "rs"
           else "") ++ "\n"), .Continue) := fun ats => rfl
    have hf : ((attrs.find? fun attr => attr.name == "class").toList.find?
        fun attr => attr.name == "class") = attrs.find? fun attr => attr.name == "class" := by
      cases h : attrs.find? (fun attr => attr.name == "class") with
      | none => rfl
      | some a =>
        have hpa := List.find?_some h
        simp [Option.toList, List.find?, hpa]
    rw [hpre attrs, hpre ((attrs.find? fun attr => attr.name == "class").toList), hf]
  · intro w attrs
    rw [hsummary w attrs]
    by_cases h : (attrs.any fun attr => attr.name == "class" && attr.value == "hideme") = true
    · rw [if_pos h]
      exact iff_of_true rfl h
    · rw [if_neg h]
      exact iff_of_false (fun hc => StartTagOutcome.noConfusion hc) h
  · intro w attrs
    rw [hdiv w attrs]
    exact skip_iff w attrs
  · intro w attrs
    rw [hspan w attrs]
    exact skip_iff w attrs
  · intro w attrs
    rw [hdiv w attrs]
    exact md_eq w attrs
  · intro w attrs
    rw [hspan w attrs]
    exact md_eq w attrs

/-- Claim C3 is false as stated: when `end_tag` is invoked the element has
already been popped.  For a `code` element visited from the fresh writer, the
stack seen by `end_tag` is empty, so the element is not its top. -/
theorem C3_counterexample :
    stack_at_end_tag MarkdownWriter.new (.element "code" [] .nil) = some [] ∧
    ¬ (([] : List HtmlElement).getLast? = some (⟨"code", []⟩ : HtmlElement)) :=
  ⟨rfl, by simp⟩

/-- Claim C3 (amended): `visit_node` performs `pop_back` strictly before
invoking `end_tag`, so the stack seen by the exit rule is exactly the stack
from before the element was entered — the element's proper ancestors, without
the element itself. -/
theorem C3_amended :
    ∀ (w : MarkdownWriter) (name : String) (attrs : List Attribute)
      (children : NodeList) (stk : List HtmlElement),
      stack_at_end_tag w (.element name attrs children) = some stk →
      stk = w.current_element_stack := by
  intro w name attrs children stk h
  simp only [stack_at_end_tag] at h
  by_cases hn : name = ""
  · rw [if_pos hn] at h
    cases h
  · rw [if_neg hn] at h
    rcases hst : start_tag w ⟨name, attrs⟩ with ⟨w', o⟩
    rw [hst] at h
    cases o with
    | Skip => cases h
    | Continue =>
      simp only [visit_children_ok] at h
      have hstack : (pop_element (visit_children_pure
          (push_element w' ⟨name, attrs⟩) children)).current_element_stack =
          w.current_element_stack := by
        show ((visit_children_pure (push_element w' ⟨name, attrs⟩)
          children).current_element_stack).dropLast = w.current_element_stack
        rw [visit_children_pure_stack]
        show (w'.current_element_stack ++ [(⟨name, attrs⟩ : HtmlElement)]).dropLast =
          w.current_element_stack
        rw [List.dropLast_concat]
        have hs := start_tag_stack w ⟨name, attrs⟩
        rw [hst] at hs
        exact hs
      rw [hstack] at h
      injection h with h
      exact h.symm

/-- Witness for the amended claim C3: with a `pre` element already on the
stack, exiting a `code` element lets `end_tag` see exactly `[pre]` — the
entry-time stack. -/
theorem C3_amended_witness :
    stack_at_end_tag ⟨[⟨"pre", []⟩], []⟩ (.element "code" [] .nil) = some [⟨"pre", []⟩] ∧
    [(⟨"pre", []⟩ : HtmlElement)] =
      (⟨[⟨"pre", []⟩], []⟩ : MarkdownWriter).current_element_stack :=
  ⟨rfl, C3_amended ⟨[⟨"pre", []⟩], []⟩ "code" [] .nil [⟨"pre", []⟩] rfl⟩

/-- Claim C4: an element whose enter rule signals `Skip` contributes nothing at
all — `visit_node` returns the incoming writer unchanged (in particular the
output buffer gains zero characters), whatever the descendant content is. -/
theorem C4_skip_prunes :
    ∀ (w : MarkdownWriter) (name : String) (attrs : List Attribute)
      (children : NodeList),
      (start_tag w ⟨name, attrs⟩).2 = .Skip →
      visit_node w (.element name attrs children) = .ok w := by
  intro w name attrs children h
  have hname : name ≠ "" := by
    intro hn
    subst hn
    have hdef : start_tag w ⟨"", attrs⟩ = (w, .Continue) := rfl
    rw [hdef] at h
    cases h
  simp only [visit_node]
  rw [if_neg hname]
  rcases hst : start_tag w ⟨name, attrs⟩ with ⟨w', o⟩
  cases o with
  | Skip =>
    have hw' := start_tag_skip_state w ⟨name, attrs⟩ h
    rw [hst] at hw'
    exact congrArg Except.ok hw'
  | Continue =>
    rw [hst] at h
    cases h

/-- Witness for claim C4: a `nav` element with a text child contributes
nothing. -/
theorem C4_skip_prunes_witness :
    (start_tag MarkdownWriter.new ⟨"nav", []⟩).2 = .Skip ∧
    visit_node MarkdownWriter.new
      (.element "nav" [] (.cons (.text "boo" .nil) .nil)) = .ok MarkdownWriter.new :=
  ⟨rfl, C4_skip_prunes MarkdownWriter.new "nav" [] (.cons (.text "boo" .nil) .nil) rfl⟩

/-- Claim C5: a `code` element emits a single backtick on enter exactly when no
element named `pre` is on the context stack, and likewise on exit for the stack
in force at exit time; in particular `<pre><code>fn a(){}</code></pre>` renders
with no backticks at all and the text kept byte-for-byte. -/
theorem C5_code_backticks :
    (∀ (w : MarkdownWriter) (attrs : List Attribute),
      (start_tag w ⟨"code", attrs⟩).1.markdown =
        w.markdown ++ (if is_inside w "pre" then [] else ['`']) ∧
      (start_tag w ⟨"code", attrs⟩).2 = .Continue ∧
      (end_tag w ⟨"code", attrs⟩).markdown =
        w.markdown ++ (if is_inside w "pre" then [] else ['`'])) ∧
    (∀ w : MarkdownWriter,
      visit_node w (.element "pre" [] (.cons
        (.element "code" [] (.cons (.text "fn a(){}" .nil) .nil)) .nil)) =
      .ok (push_chars w ("\n```\nfn a(){}\n```\n").data)) := by
  constructor
  · intro w attrs
    have hu1 : start_tag w ⟨"code", attrs⟩ =
        ((if is_inside w "pre" = true then w else push_str w "`"), .Continue) := rfl
    have hu2 : end_tag w ⟨"code", attrs⟩ =
        (if is_inside w "pre" = true then w else push_str w "`") := rfl
    rw [hu1, hu2]
    by_cases h : is_inside w "pre" = true
    · rw [if_pos h, if_pos h]
      exact ⟨(List.append_nil _).symm, rfl, (List.append_nil _).symm⟩
    · rw [if_neg h, if_neg h]
      exact ⟨rfl, rfl, rfl⟩
  · intro w
    rw [visit_node_ok]
    suffices hs : visit_node_pure w (.element "pre" [] (.cons
        (.element "code" [] (.cons (.text "fn a(){}" .nil) .nil)) .nil)) =
        push_chars w ("\n```\nfn a(){}\n```\n").data by rw [hs]
    have h1 : is_inside (push_element (push_str w "\n```\n") ⟨"pre", []⟩) "pre" = true := by
      simp [is_inside, push_element]
    have e1 : visit_node_pure w (.element "pre" [] (.cons
        (.element "code" [] (.cons (.text "fn a(){}" .nil) .nil)) .nil)) =
        end_tag (pop_element (visit_node_pure
          (push_element (push_str w "\n```\n") ⟨"pre", []⟩)
          (.element "code" [] (.cons (.text "fn a(){}" .nil) .nil)))) ⟨"pre", []⟩ := rfl
    rw [e1]
    have e2 : visit_node_pure (push_element (push_str w "\n```\n") ⟨"pre", []⟩)
        (.element "code" [] (.cons (.text "fn a(){}" .nil) .nil)) =
        end_tag (pop_element (visit_text_pure
          (push_element
            (if is_inside (push_element (push_str w "\n```\n") ⟨"pre", []⟩) "pre" = true
             then push_element (push_str w "\n```\n") ⟨"pre", []⟩
             else push_str (push_element (push_str w "\n```\n") ⟨"pre", []⟩) "`")
            ⟨"code", []⟩) "fn a(){}")) ⟨"code", []⟩ := rfl
    rw [e2, if_pos h1]
    have e3 : ∀ v : MarkdownWriter, visit_text_pure v "fn a(){}" = push_str v "fn a(){}" := by
      intro v
      rw [visit_text_pure]
      split <;> rfl
    rw [e3]
    have e4 : ∀ v : MarkdownWriter, end_tag v ⟨"code", []⟩ =
        (if is_inside v "pre" = true then v else push_str v "`") := fun v => rfl
    have e5 : ∀ v : MarkdownWriter, end_tag v ⟨"pre", []⟩ = push_str v "\n```\n" :=
      fun v => rfl
    rw [e4]
    have h3 : is_inside (pop_element (push_str (push_element
        (push_element (push_str w "\n```\n") ⟨"pre", []⟩) ⟨"code", []⟩) "fn a(){}"))
        "pre" = true := by
      simp [is_inside, pop_element, push_str, push_chars, push_element, List.dropLast_concat]
    rw [if_pos h3, e5]
    simp [push_str, push_chars, push_element, pop_element, List.dropLast_concat]

/-- Claim C6: `visit_text` appends the text byte-for-byte when an element named
`pre` is on the stack, and otherwise appends the text with exactly the
characters newline, carriage return, and section sign trimmed from both ends:
the appended part is a contiguous middle slice of the original (interior
unchanged), everything removed on either side is from that character set, and
the trimming is maximal (the remaining ends are not in the set). -/
theorem C6_text_rendering :
    ∀ (w : MarkdownWriter) (text : String),
      visit_text w text = .ok (push_chars w
        (if is_inside w "pre" then text.data else trimBoth is_trimmed_char text.data)) ∧
      (∃ a b, text.data = a ++ trimBoth is_trimmed_char text.data ++ b ∧
        a.all is_trimmed_char = true ∧ b.all is_trimmed_char = true) ∧
      ((trimBoth is_trimmed_char text.data).head?.all fun c => !is_trimmed_char c) = true ∧
      ((trimBoth is_trimmed_char text.data).getLast?.all fun c => !is_trimmed_char c) = true := by
  intro w text
  refine ⟨?_, trimBoth_decomp _ _, trimBoth_head_not _ _, trimBoth_getLast_not _ _⟩
  rw [visit_text]
  by_cases h : is_inside w "pre" = true
  · rw [if_pos h, if_pos h]
    rfl
  · rw [if_neg h, if_neg h]

/-- Claim C7: the output of `prettify_markdown` never contains three (or more)
consecutive newline characters, and hence the final output of `run` never
does — at most one consecutive blank line survives. -/
theorem C7_no_triple_blank :
    (∀ l : List Char, has_triple_newline (prettify_markdown l) = false) ∧
    ∀ (w : MarkdownWriter) (root_node : Node), ∃ out,
      run w root_node = .ok out ∧ has_triple_newline out = false := by
  refine ⟨prettify_no_triple, fun w root_node => ?_⟩
  refine ⟨prettify_markdown (visit_node_pure w root_node).markdown, ?_, prettify_no_triple _⟩
  simp only [run, visit_node_ok]

/-- Claim C8: `prettify_markdown` is idempotent — normalising an already
normalised text changes nothing. -/
theorem C8_idempotent :
    ∀ l : List Char, prettify_markdown (prettify_markdown l) = prettify_markdown l :=
  prettify_idem

/-- Claim C9: `run` is infallible — for every writer state and every DOM tree
it returns `Except.ok`; the error branch is never taken. -/
theorem C9_infallible :
    ∀ (w : MarkdownWriter) (root_node : Node), ∃ out, run w root_node = .ok out := by
  intro w root_node
  refine ⟨prettify_markdown (visit_node_pure w root_node).markdown, ?_⟩
  simp only [run, visit_node_ok]

/-- Claim C10: a `span` whose class attribute is exactly `item-name` gets an
opening backtick from the enter rule but nothing from the exit rule (the
closing "\x60: " is emitted only for `div`), so visiting such a span appends an
odd, unbalanced single backtick before its content. -/
theorem C10_span_item_name_unbalanced :
    ∀ w : MarkdownWriter,
      start_tag w ⟨"span", [⟨"class", "item-name"⟩]⟩ = (push_str w "`", .Continue) ∧
      end_tag w ⟨"span", [⟨"class", "item-name"⟩]⟩ = w ∧
      end_tag w ⟨"div", [⟨"class", "item-name"⟩]⟩ = push_str w "`: " ∧
      visit_node w (.element "span" [⟨"class", "item-name"⟩]
          (.cons (.text "foo" .nil) .nil)) =
        .ok (push_chars w ('`' :: "foo".data)) := by
  intro w
  refine ⟨rfl, rfl, rfl, ?_⟩
  rw [visit_node_ok]
  suffices hs : visit_node_pure w (.element "span" [⟨"class", "item-name"⟩]
      (.cons (.text "foo" .nil) .nil)) = push_chars w ('`' :: "foo".data) by rw [hs]
  have e1 : visit_node_pure w (.element "span" [⟨"class", "item-name"⟩]
      (.cons (.text "foo" .nil) .nil)) =
      end_tag (pop_element (visit_text_pure
        (push_element (push_str w "`") ⟨"span", [⟨"class", "item-name"⟩]⟩) "foo"))
        ⟨"span", [⟨"class", "item-name"⟩]⟩ := rfl
  rw [e1]
  have e2 : ∀ v : MarkdownWriter, visit_text_pure v "foo" = push_str v "foo" := by
    intro v
    rw [visit_text_pure]
    split <;> rfl
  rw [e2]
  have e3 : ∀ v : MarkdownWriter,
      end_tag v ⟨"span", [⟨"class", "item-name"⟩]⟩ = v := fun v => rfl
  rw [e3]
  simp [push_str, push_chars, push_element, pop_element, List.dropLast_concat]
